import Mathlib

/-
Verification of the generate-idea edge function
(src/supabase/functions/generate-idea/index.ts).

Strings are modelled as List Char.  JavaScript runtime values reaching
sanitizeString / validateNumber are modelled by JSVal (JSON values), with
Option JSVal for possibly-undefined property accesses.  Exceptions thrown
inside the handler try block are modelled explicitly: every throwing point
maps to the catch-all 500 response.
-/

/-- Characters treated as whitespace by the JavaScript trim and parseInt
functions (ASCII whitespace and line terminators). -/
def jsWhitespace (c : Char) : Bool :=
  c = ' ' || c = '\t' || c = '\n' || c = '\r' || c = '\x0b' || c = '\x0c'

/-- Model of the JavaScript String.prototype.trim, left part. -/
def trimLeftJS (s : List Char) : List Char := s.dropWhile jsWhitespace

/-- Model of the JavaScript String.prototype.trim, right part. -/
def trimRightJS (s : List Char) : List Char := (s.reverse.dropWhile jsWhitespace).reverse

/-- Model of the JavaScript String.prototype.trim. -/
def trimJS (s : List Char) : List Char := trimLeftJS (trimRightJS s)

/-- Decimal digit test. -/
def isDigitChar (c : Char) : Bool := '0' ≤ c && c ≤ '9'

/-- Numeric value of a run of decimal digits, most significant first. -/
def digitsToInt (ds : List Char) : ℤ :=
  ds.foldl (fun a c => a * 10 + ((c.toNat : ℤ) - ('0'.toNat : ℤ))) 0

/-- A JavaScript number: either NaN or a real value (modelled as a rational). -/
inductive JSNum where
  | nan
  | real (q : ℚ)
deriving DecidableEq

/-- Model of parseInt(s, 10): skip leading whitespace, optional sign,
then the longest run of decimal digits; NaN if there is no digit. -/
def parseIntJS (s : List Char) : JSNum :=
  let s1 := trimLeftJS s
  let signAndRest : ℤ × List Char :=
    match s1 with
    | '-' :: r => (-1, r)
    | '+' :: r => (1, r)
    | r => (1, r)
  let ds := signAndRest.2.takeWhile isDigitChar
  if ds = [] then .nan else .real ((signAndRest.1 * digitsToInt ds : ℤ) : ℚ)

/-- A JavaScript value as delivered by JSON parsing (request bodies,
gateway replies).  undefined is modelled as `none` at use sites. -/
inductive JSVal where
  | null
  | bool (b : Bool)
  | num (q : ℚ)
  | str (s : List Char)
  | arr (xs : List JSVal)
  | obj (fs : List (List Char × JSVal))

/-- Decimal rendering of a rational: exact when the expansion terminates
(the case for every JSON-parsed number), truncated after `fuel` fractional
digits otherwise.  Only used to model String(v) on non-string values. -/
def fracDigitsChars (fuel : ℕ) (num den : ℕ) : List Char :=
  match fuel with
  | 0 => []
  | f + 1 =>
    if num = 0 then []
    else
      let d := num * 10 / den
      Char.ofNat ('0'.toNat + d) :: fracDigitsChars f (num * 10 % den) den

/-- Decimal digits of a natural number. -/
def natToChars (n : ℕ) : List Char :=
  Nat.toDigits 10 n

/-- Decimal rendering of a rational number. -/
def ratToChars (q : ℚ) : List Char :=
  let sign : List Char := if q < 0 then ['-'] else []
  let n := q.num.natAbs
  let intPart := natToChars (n / q.den)
  let frac := fracDigitsChars 30 (n % q.den) q.den
  sign ++ intPart ++ (if frac = [] then [] else '.' :: frac)

mutual
/-- Model of the JavaScript String() conversion on the values that can
reach it here (JSON values). -/
def jsToString : JSVal → List Char
  | .null => "null".toList
  | .bool true => "true".toList
  | .bool false => "false".toList
  | .num q => ratToChars q
  | .str s => s
  | .arr xs => jsArrToString xs
  | .obj _ => "[object Object]".toList
termination_by v => (sizeOf v, 0)

/-- Array toString: elements stringified (null as empty) and joined by commas. -/
def jsArrToString : List JSVal → List Char
  | [] => []
  | [x] => jsItemToString x
  | x :: xs => jsItemToString x ++ ',' :: jsArrToString xs
termination_by xs => (sizeOf xs, 2)

/-- Element stringification inside Array.prototype.join: null renders empty. -/
def jsItemToString : JSVal → List Char
  | .null => []
  | v => jsToString v
termination_by v => (sizeOf v, 1)
end

/-- MAX_STRING_LENGTH from the source. -/
def MAX_STRING_LENGTH : ℕ := 500

/-- sanitizeString from the source: non-strings become the empty string;
strings have every < and > removed, are trimmed, then cut to 500 chars.
The argument is an optional JSON value (none models undefined). -/
def sanitizeString (v : Option JSVal) : List Char :=
  match v with
  | some (.str s) =>
    (trimJS (s.filter (fun c => ¬ (c = '<' ∨ c = '>')))).take MAX_STRING_LENGTH
  | _ => []

/-- validateNumber from the source: a number input is used as is, any other
input goes through parseInt(String(val), 10); NaN yields the default, any
other value is clamped by Math.min(Math.max(val, lo), hi). -/
def validateNumber (val : Option JSVal) (lo hi dflt : ℚ) : ℚ :=
  let n : JSNum :=
    match val with
    | some (.num q) => .real q
    | some (.str s) => parseIntJS s
    | some v => parseIntJS (jsToString v)
    | none => parseIntJS "undefined".toList
  match n with
  | .nan => dflt
  | .real q => min (max q lo) hi

example : sanitizeString (some (.str "  <b>hi</b>  ".toList)) = "bhi/b".toList := by decide
example : validateNumber (some (.num 0)) 1 5 3 = 1 := by decide
example : validateNumber (some (.num 999)) 1 5 3 = 5 := by decide
example : validateNumber (some (.str "42".toList)) 1 365 7 = 42 := by decide
example : validateNumber none 1 365 7 = 7 := by decide

/-! ## Rate limiter -/

/-- RATE_LIMIT_MAX from the source: max requests per window. -/
def RATE_LIMIT_MAX : ℕ := 20

/-- RATE_LIMIT_WINDOW_MS from the source: one hour in milliseconds. -/
def RATE_LIMIT_WINDOW_MS : ℤ := 60 * 60 * 1000

/-- One entry of rateLimitMap. -/
structure RateRecord where
  count : ℕ
  resetTime : ℤ
deriving DecidableEq

/-- The in-memory rateLimitMap, keyed by the caller key. -/
def RateMap : Type := List Char → Option RateRecord

/-- Map.set: point update of the rate-limit map. -/
def RateMap.set (m : RateMap) (k : List Char) (r : RateRecord) : RateMap :=
  fun k2 => if k2 = k then some r else m k2

/-- The map at cold start: no entries. -/
def emptyRateMap : RateMap := fun _ => none

/-- Return value of checkRateLimit. -/
structure RateCheckResult where
  allowed : Bool
  remaining : ℤ
deriving DecidableEq

/-- checkRateLimit from the source, with the map and the current time
passed explicitly in place of the module-level mutable state. -/
def checkRateLimit (key : List Char) (now : ℤ) (m : RateMap) :
    RateCheckResult × RateMap :=
  match m key with
  | none =>
    (⟨true, (RATE_LIMIT_MAX : ℤ) - 1⟩, m.set key ⟨1, now + RATE_LIMIT_WINDOW_MS⟩)
  | some record =>
    if now > record.resetTime then
      (⟨true, (RATE_LIMIT_MAX : ℤ) - 1⟩, m.set key ⟨1, now + RATE_LIMIT_WINDOW_MS⟩)
    else if record.count ≥ RATE_LIMIT_MAX then
      (⟨false, 0⟩, m)
    else
      (⟨true, (RATE_LIMIT_MAX : ℤ) - (record.count + 1)⟩,
       m.set key ⟨record.count + 1, record.resetTime⟩)

/-- Run a sequence of checkRateLimit calls for one key at the given times,
collecting the allowed flags. -/
def runRateSeq (key : List Char) (times : List ℤ) (m : RateMap) :
    List Bool × RateMap :=
  match times with
  | [] => ([], m)
  | t :: ts =>
    let step := checkRateLimit key t m
    let rest := runRateSeq key ts step.2
    (step.1.allowed :: rest.1, rest.2)

example :
    (runRateSeq "1.2.3.4".toList [0, 1, 2] emptyRateMap).1 = [true, true, true] := by decide

example :
    (runRateSeq "k".toList (List.replicate 21 0) emptyRateMap).1
      = List.replicate 20 true ++ [false] := by decide

/-! ## JSON parsing: a model of the platform JSON.parse.
Strings are scanned leniently (raw control characters are accepted);
every input this development evaluates the parser on is well behaved in
that respect. -/

/-- JSON insignificant whitespace. -/
def jsonWs (c : Char) : Bool := c = ' ' || c = '\t' || c = '\n' || c = '\r'

/-- Drop insignificant whitespace. -/
def skipWs (s : List Char) : List Char := s.dropWhile jsonWs

/-- Value of a hexadecimal digit. -/
def hexVal (c : Char) : Option ℕ :=
  if '0' ≤ c ∧ c ≤ '9' then some (c.toNat - '0'.toNat)
  else if 'a' ≤ c ∧ c ≤ 'f' then some (c.toNat - 'a'.toNat + 10)
  else if 'A' ≤ c ∧ c ≤ 'F' then some (c.toNat - 'A'.toNat + 10)
  else none

/-- Scan a JSON string body after the opening quote; returns the decoded
characters and the input after the closing quote. -/
def parseStringBody : List Char → Option (List Char × List Char)
  | [] => none
  | '"' :: r => some ([], r)
  | '\\' :: 'u' :: a :: b :: c :: d :: r =>
    match hexVal a, hexVal b, hexVal c, hexVal d with
    | some va, some vb, some vc, some vd =>
      (parseStringBody r).map
        (fun p => (Char.ofNat (((va * 16 + vb) * 16 + vc) * 16 + vd) :: p.1, p.2))
    | _, _, _, _ => none
  | '\\' :: e :: r =>
    let dec : Option Char :=
      if e = '"' then some '"'
      else if e = '\\' then some '\\'
      else if e = '/' then some '/'
      else if e = 'b' then some '\x08'
      else if e = 'f' then some '\x0c'
      else if e = 'n' then some '\n'
      else if e = 'r' then some '\r'
      else if e = 't' then some '\t'
      else none
    match dec with
    | some ch => (parseStringBody r).map (fun p => (ch :: p.1, p.2))
    | none => none
  | c :: r => (parseStringBody r).map (fun p => (c :: p.1, p.2))

/-- Parse a JSON number literal at the head of the input. -/
def parseNumberJSON (s : List Char) : Option (ℚ × List Char) :=
  let signAndRest : Bool × List Char :=
    match s with
    | '-' :: r => (true, r)
    | _ => (false, s)
  let s1 := signAndRest.2
  let ds := s1.takeWhile isDigitChar
  if ds = [] then none
  else if 1 < ds.length ∧ ds.head? = some '0' then none
  else
    let afterInt := s1.dropWhile isDigitChar
    let intVal : ℚ := ((digitsToInt ds : ℤ) : ℚ)
    let fracStep : Option (ℚ × List Char) :=
      match afterInt with
      | '.' :: r2 =>
        let fds := r2.takeWhile isDigitChar
        if fds = [] then none
        else some (intVal + ((digitsToInt fds : ℤ) : ℚ) / ((10 : ℚ) ^ fds.length),
                   r2.dropWhile isDigitChar)
      | _ => some (intVal, afterInt)
    match fracStep with
    | none => none
    | some (v1, r3) =>
      let expStep : Option (ℚ × List Char) :=
        match r3 with
        | 'e' :: r4 | 'E' :: r4 =>
          let signExp : Bool × List Char :=
            match r4 with
            | '-' :: r5 => (true, r5)
            | '+' :: r5 => (false, r5)
            | _ => (false, r4)
          let eds := signExp.2.takeWhile isDigitChar
          if eds = [] then none
          else
            let e : ℤ := if signExp.1 then -(digitsToInt eds) else digitsToInt eds
            some (v1 * (10 : ℚ) ^ e, signExp.2.dropWhile isDigitChar)
        | _ => some (v1, r3)
      match expStep with
      | none => none
      | some (v2, r6) => some (if signAndRest.1 then -v2 else v2, r6)

mutual
/-- Parse one JSON value, fuel bounded. -/
def parseJsonF : ℕ → List Char → Option (JSVal × List Char)
  | 0, _ => none
  | f + 1, s =>
    match skipWs s with
    | 'n' :: 'u' :: 'l' :: 'l' :: r => some (.null, r)
    | 't' :: 'r' :: 'u' :: 'e' :: r => some (.bool true, r)
    | 'f' :: 'a' :: 'l' :: 's' :: 'e' :: r => some (.bool false, r)
    | '"' :: r => (parseStringBody r).map (fun p => (.str p.1, p.2))
    | '[' :: r =>
      match skipWs r with
      | ']' :: r2 => some (.arr [], r2)
      | _ => (parseJsonItems f r).map (fun p => (.arr p.1, p.2))
    | '\x7b' :: r =>
      match skipWs r with
      | '\x7d' :: r2 => some (.obj [], r2)
      | _ => (parseJsonMembers f r).map (fun p => (.obj p.1, p.2))
    | r => (parseNumberJSON r).map (fun p => (.num p.1, p.2))

/-- Parse the comma separated elements of a non-empty JSON array, up to and
including the closing bracket. -/
def parseJsonItems : ℕ → List Char → Option (List JSVal × List Char)
  | 0, _ => none
  | f + 1, s =>
    match parseJsonF f s with
    | none => none
    | some (v, rest) =>
      match skipWs rest with
      | ',' :: r2 => (parseJsonItems f r2).map (fun p => (v :: p.1, p.2))
      | ']' :: r2 => some ([v], r2)
      | _ => none

/-- Parse the members of a non-empty JSON object, up to and including the
closing brace. -/
def parseJsonMembers : ℕ → List Char → Option (List (List Char × JSVal) × List Char)
  | 0, _ => none
  | f + 1, s =>
    match skipWs s with
    | '"' :: r =>
      match parseStringBody r with
      | none => none
      | some (name, rest) =>
        match skipWs rest with
        | ':' :: r2 =>
          match parseJsonF f r2 with
          | none => none
          | some (v, rest2) =>
            match skipWs rest2 with
            | ',' :: r3 => (parseJsonMembers f r3).map (fun p => ((name, v) :: p.1, p.2))
            | '\x7d' :: r3 => some ([(name, v)], r3)
            | _ => none
        | _ => none
    | _ => none
end

/-- Model of JSON.parse: parse one value and require only whitespace after
it; any failure is the thrown SyntaxError. -/
def jsonParse (s : List Char) : Option JSVal :=
  match parseJsonF (2 * s.length + 2) s with
  | some (v, rest) => if skipWs rest = [] then some v else none
  | none => none

/-- Property lookup on parsed JSON objects (the last duplicate of a key
wins, as in JSON.parse). -/
def jlookup (fs : List (List Char × JSVal)) (name : List Char) : Option JSVal :=
  fs.foldl (fun acc f => if f.1 = name then some f.2 else acc) none

/-- Property access: v.name, where v came from JSON.parse and is not null
(access on null throws and is modelled at the call sites). -/
def jfield (v : JSVal) (name : List Char) : Option JSVal :=
  match v with
  | .obj fs => jlookup fs name
  | _ => none

/-- The structure check parsedData.ideas && Array.isArray(parsedData.ideas):
true exactly when the value is an object whose ideas field is an array. -/
def hasIdeasList (v : JSVal) : Bool :=
  match v with
  | .obj fs =>
    match jlookup fs "ideas".toList with
    | some (.arr _) => true
    | _ => false
  | _ => false

example : jsonParse " [1, -3]".toList = some (.arr [.num 1, .num (-3)]) := rfl
example :
    jsonParse "\x7b\"a\": \"b\", \"a\": true\x7d".toList
      = some (.obj [("a".toList, .str "b".toList), ("a".toList, .bool true)]) := rfl
example : jsonParse "\x7b\"ideas\": []\x7d".toList = some (.obj [("ideas".toList, .arr [])]) := rfl
example : (jsonParse "\x7b\"ideas\": []\x7d".toList).map hasIdeasList = some true := rfl
example : jsonParse "not json".toList = none := rfl

/-! ## Response recovery: fence stripping, brace extraction, two-stage parse -/

/-- Model of content.replace(/```json\n?/g, ''): remove every occurrence of
three backticks followed by the letters json and an optional newline,
scanning left to right without overlap. -/
def removeJsonFenceTags : List Char → List Char
  | '`' :: '`' :: '`' :: 'j' :: 's' :: 'o' :: 'n' :: '\n' :: rest => removeJsonFenceTags rest
  | '`' :: '`' :: '`' :: 'j' :: 's' :: 'o' :: 'n' :: rest => removeJsonFenceTags rest
  | c :: cs => c :: removeJsonFenceTags cs
  | [] => []

/-- Model of the following .replace(/```\n?/g, ''): remove every occurrence
of three backticks and an optional newline. -/
def removeFenceTags : List Char → List Char
  | '`' :: '`' :: '`' :: '\n' :: rest => removeFenceTags rest
  | '`' :: '`' :: '`' :: rest => removeFenceTags rest
  | c :: cs => c :: removeFenceTags cs
  | [] => []

/-- The cleanContent computation: both replacements, then trim. -/
def cleanContent (s : List Char) : List Char :=
  trimJS (removeFenceTags (removeJsonFenceTags s))

/-- Model of content.match(/\x7b[\s\S]*\x7d/): the substring from the first
opening brace to the last closing brace after it, if both exist. -/
def braceExtract (s : List Char) : Option (List Char) :=
  let fromBrace := s.dropWhile (fun c => ¬ c = '\x7b')
  let upToBrace := (fromBrace.reverse.dropWhile (fun c => ¬ c = '\x7d')).reverse
  if upToBrace = [] then none else some upToBrace

/-- The response parsing section of the handler (lines 271 to 314): clean
and parse; throw into the catch when the parse fails or the parsed value
has no ideas array; in the catch, retry on the brace extracted substring of
the original text; map the remaining failures to the two 500 responses. -/
def responseRecovery (generatedContent : List Char) :
    Except (ℕ × List Char) JSVal :=
  let direct : Option JSVal :=
    match jsonParse (cleanContent generatedContent) with
    | some v => if hasIdeasList v then some v else none
    | none => none
  match direct with
  | some v => .ok v
  | none =>
    match braceExtract generatedContent with
    | some sub =>
      match jsonParse sub with
      | some v => .ok v
      | none => .error (500, "Failed to process response. Please try again.".toList)
    | none => .error (500, "Failed to generate ideas. Please try again.".toList)

example :
    responseRecovery "```json\n\x7b\"ideas\": [1]\x7d\n```".toList
      = .ok (.obj [("ideas".toList, .arr [.num 1])]) := rfl
example :
    responseRecovery "no braces here".toList
      = .error (500, "Failed to generate ideas. Please try again.".toList) := rfl
example :
    responseRecovery "prose \x7b\"ideas\": []\x7d".toList
      = .ok (.obj [("ideas".toList, .arr [])]) := rfl

/-! ## The request handler -/

/-- The permissive CORS headers attached to every response. -/
def corsHeaders : List (List Char × List Char) :=
  [("Access-Control-Allow-Origin".toList, "*".toList),
   ("Access-Control-Allow-Headers".toList,
    "authorization, x-client-info, apikey, content-type".toList)]

/-- The JSON content type header. -/
def contentTypeJson : List Char × List Char :=
  ("Content-Type".toList, "application/json".toList)

/-- The body of a Response: null for the preflight reply, otherwise the
JSON value passed to JSON.stringify. -/
inductive BodyModel where
  | empty
  | json (v : JSVal)

/-- An emitted HTTP response. -/
structure HttpResponse where
  status : ℕ
  headers : List (List Char × List Char)
  body : BodyModel

/-- An error response: JSON.stringify(\x7b error: msg \x7d) with CORS and
content type headers. -/
def mkJsonError (status : ℕ) (msg : List Char) : HttpResponse :=
  ⟨status, corsHeaders ++ [contentTypeJson], .json (.obj [("error".toList, .str msg)])⟩

/-- The local rate limit denial: 429 with the Retry-After header. -/
def rateLimitedLocal : HttpResponse :=
  ⟨429, corsHeaders ++ [contentTypeJson, ("Retry-After".toList, "3600".toList)],
   .json (.obj [("error".toList,
     .str "Rate limit exceeded. Please try again later.".toList)])⟩

/-- The catch-all 500 response for any exception inside the try block. -/
def unexpectedError : HttpResponse :=
  mkJsonError 500 "An unexpected error occurred. Please try again.".toList

/-- The inbound request, reduced to the parts the handler reads.  The body
is the result of req.json(): none models a body that fails JSON parsing
(req.json() throws). -/
structure RequestModel where
  method : List Char
  xForwardedFor : Option (List Char)
  xRealIp : Option (List Char)
  contentLength : Option (List Char)
  body : Option JSVal

/-- The outcome of the fetch to the model gateway.  fetchFailure models a
thrown transport error; reply carries the HTTP status and, for ok replies,
the choices[0].message.content string (none when the reply body is
malformed so that reading the content throws). -/
inductive GatewayOutcome where
  | fetchFailure
  | reply (status : ℕ) (content : Option (List Char))

/-- getRateLimitKey from the source:
forwarded?.split(',')[0]?.trim() || realIp || 'unknown'. -/
def getRateLimitKey (fwd realIp : Option (List Char)) : List Char :=
  let fallback : List Char :=
    match realIp with
    | some r => if r = [] then "unknown".toList else r
    | none => "unknown".toList
  match fwd with
  | some f =>
    let k := trimJS (f.takeWhile (fun c => ¬ c = ','))
    if k = [] then fallback else k
  | none => fallback

/-- MAX_REQUEST_SIZE from the source. -/
def MAX_REQUEST_SIZE : ℚ := 10000

/-- The request size guard: contentLength && parseInt(contentLength, 10) >
MAX_REQUEST_SIZE (an absent or empty header, or a NaN parse, passes). -/
def sizeExceeded (cl : Option (List Char)) : Bool :=
  match cl with
  | none => false
  | some s =>
    if s = [] then false
    else
      match parseIntJS s with
      | .nan => false
      | .real q => q > MAX_REQUEST_SIZE

/-- VALID_DIFFICULTIES from the source. -/
def VALID_DIFFICULTIES : List (List Char) :=
  ["beginner", "intermediate", "advanced", "easy", "medium", "hard"].map String.toList

/-- VALID_MODES from the source. -/
def VALID_MODES : List (List Char) :=
  ["hackathon", "startup", "academic", "beginner", "personal", "learning"].map String.toList

/-- String.prototype.toLowerCase on the ASCII strings involved. -/
def toLowerStr (s : List Char) : List Char := s.map Char.toLower

/-- The gateway call and everything after it: status mapping for non-ok
replies, then content extraction and response recovery.  Thrown exceptions
(fetch failure, missing content) become the catch-all 500. -/
def gatewayStage (gw : GatewayOutcome) : HttpResponse :=
  match gw with
  | .fetchFailure => unexpectedError
  | .reply status content =>
    if ¬ (200 ≤ status ∧ status ≤ 299) then
      if status = 429 then
        mkJsonError 429 "Rate limit exceeded. Please try again in a moment.".toList
      else if status = 402 then
        mkJsonError 402 "AI credits exhausted. Please contact support.".toList
      else
        mkJsonError 500 "Service temporarily unavailable. Please try again.".toList
    else
      match content with
      | none => unexpectedError
      | some text =>
        match responseRecovery text with
        | .ok v => ⟨200, corsHeaders ++ [contentTypeJson], .json v⟩
        | .error e => mkJsonError e.1 e.2

/-- Sanitization, required field check, enumeration checks, then the
gateway stage.  A null body throws on the first property access and lands
in the catch-all. -/
def validateStage (body : JSVal) (gw : GatewayOutcome) : HttpResponse :=
  match body with
  | .null => unexpectedError
  | _ =>
    let domain := sanitizeString (jfield body "domain".toList)
    let audience := sanitizeString (jfield body "audience".toList)
    let difficulty := sanitizeString (jfield body "difficulty".toList)
    let mode := sanitizeString (jfield body "mode".toList)
    let _skills := sanitizeString (jfield body "skills".toList)
    let _constraints := sanitizeString (jfield body "constraints".toList)
    let _time_available_days := validateNumber (jfield body "time_available_days".toList) 1 365 7
    let _multi_idea_count := validateNumber (jfield body "multi_idea_count".toList) 1 5 3
    if domain = [] ∨ audience = [] ∨ difficulty = [] ∨ mode = [] then
      mkJsonError 400 "Missing required fields: domain, audience, difficulty, mode".toList
    else if ¬ toLowerStr difficulty ∈ VALID_DIFFICULTIES then
      mkJsonError 400 "Invalid difficulty level".toList
    else if ¬ toLowerStr mode ∈ VALID_MODES then
      mkJsonError 400 "Invalid mode".toList
    else
      gatewayStage gw

/-- The try block: size check, body parse (a parse failure throws into the
catch-all), then validation and the gateway call.  The prompt strings built
between validation and the call do not influence any response and are not
modelled. -/
def tryStage (req : RequestModel) (gw : GatewayOutcome) : HttpResponse :=
  if sizeExceeded req.contentLength then
    mkJsonError 413 "Request too large".toList
  else
    match req.body with
    | none => unexpectedError
    | some body => validateStage body gw

/-- The serve handler: CORS preflight short-circuit, rate limiting, then
the try block.  Returns the response together with the rate-limit map
after the call. -/
def serveHandler (req : RequestModel) (now : ℤ) (gw : GatewayOutcome) (m : RateMap) :
    HttpResponse × RateMap :=
  if req.method = "OPTIONS".toList then
    (⟨200, corsHeaders, .empty⟩, m)
  else
    let key := getRateLimitKey req.xForwardedFor req.xRealIp
    let rateStep := checkRateLimit key now m
    if rateStep.1.allowed = false then
      (rateLimitedLocal, rateStep.2)
    else
      (tryStage req gw, rateStep.2)

/-! ## Helper lemmas about trimming -/

theorem head?_dropWhile_not {p : Char → Bool} {xs : List Char} {c : Char}
    (h : (xs.dropWhile p).head? = some c) : p c = false := by
  induction xs with
  | nil => simp [List.dropWhile] at h
  | cons a as ih =>
    by_cases hp : p a
    · rw [List.dropWhile_cons_of_pos hp] at h
      exact ih h
    · rw [List.dropWhile_cons_of_neg hp] at h
      simp at h
      subst h
      simpa using hp

theorem dropWhile_of_head?_not {p : Char → Bool} {xs : List Char}
    (h : ∀ c, xs.head? = some c → p c = false) : xs.dropWhile p = xs := by
  cases xs with
  | nil => rfl
  | cons a as =>
    have := h a rfl
    rw [List.dropWhile_cons_of_neg (by simp [this])]

theorem mem_of_mem_trimJS {s : List Char} {c : Char} (h : c ∈ trimJS s) : c ∈ s := by
  unfold trimJS trimLeftJS trimRightJS at h
  have h1 := (List.dropWhile_sublist jsWhitespace).mem h
  rw [List.mem_reverse] at h1
  have h2 := (List.dropWhile_sublist jsWhitespace).mem h1
  rwa [List.mem_reverse] at h2

theorem getLast?_trimRightJS_not {s : List Char} {c : Char}
    (h : (trimRightJS s).getLast? = some c) : jsWhitespace c = false := by
  unfold trimRightJS at h
  rw [List.getLast?_reverse] at h
  exact head?_dropWhile_not h

theorem trimRightJS_of_getLast?_not {s : List Char}
    (h : ∀ c, s.getLast? = some c → jsWhitespace c = false) : trimRightJS s = s := by
  unfold trimRightJS
  rw [dropWhile_of_head?_not (fun c hc => h c (by rwa [List.head?_reverse] at hc))]
  exact List.reverse_reverse s

theorem getLast?_trimLeftJS {s : List Char} (hne : trimLeftJS s ≠ []) :
    (trimLeftJS s).getLast? = s.getLast? := by
  unfold trimLeftJS at *
  obtain ⟨t, ht⟩ := List.dropWhile_suffix (l := s) jsWhitespace
  conv_rhs => rw [← ht]
  rw [List.getLast?_append]
  cases h : (s.dropWhile jsWhitespace).getLast? with
  | none => exact absurd (List.getLast?_eq_none_iff.mp h) hne
  | some c => rfl

theorem dropWhile_idem {p : Char → Bool} (xs : List Char) :
    (xs.dropWhile p).dropWhile p = xs.dropWhile p :=
  dropWhile_of_head?_not (fun _ hc => head?_dropWhile_not hc)

theorem head?_take_pos {α : Type} {n : ℕ} (l : List α) (h : 0 < n) :
    (l.take n).head? = l.head? := by
  cases n with
  | zero => exact absurd h (by simp)
  | succ k => cases l <;> simp

theorem trimJS_idem (s : List Char) : trimJS (trimJS s) = trimJS s := by
  unfold trimJS
  by_cases hne : trimLeftJS (trimRightJS s) = []
  · rw [hne]
    rfl
  · rw [trimRightJS_of_getLast?_not (fun c hc => by
      rw [getLast?_trimLeftJS hne] at hc
      exact getLast?_trimRightJS_not hc)]
    unfold trimLeftJS
    exact dropWhile_idem _

theorem trimJS_append_newline (s : List Char) : trimJS (s ++ ['\n']) = trimJS s := by
  unfold trimJS trimRightJS
  rw [List.reverse_append]
  simp only [List.reverse_cons, List.reverse_nil, List.nil_append, List.singleton_append]
  rw [List.dropWhile_cons_of_pos (by decide)]

/-! ## C5: sanitizeString -/

set_option maxRecDepth 4000 in
/-- C5 counterexample: a 501 character string with an interior space right
at the cut position.  Trimming happens before truncation, so the result
ends in whitespace, refuting the claim that the result is trimmed. -/
theorem c5_trailing_whitespace_cex :
    (sanitizeString (some (.str (List.replicate 499 'a' ++ ' ' :: ['a'])))).getLast?
        = some ' '
      ∧ jsWhitespace ' ' = true
      ∧ trimJS (sanitizeString (some (.str (List.replicate 499 'a' ++ ' ' :: ['a']))))
          ≠ sanitizeString (some (.str (List.replicate 499 'a' ++ ' ' :: ['a']))) := by
  refine ⟨by decide, rfl, by decide⟩

/-- C5 amended: for every input value, sanitizeString returns a string with
no angle brackets, of length at most 500, with no leading whitespace, empty
for non-string input; it is fully trimmed whenever no truncation occurs
(trailing whitespace can survive only when the trimmed string is longer
than 500 characters, as the counterexample forces). -/
theorem c5_sanitize_bounds (v : Option JSVal) :
    (∀ c ∈ sanitizeString v, ¬ (c = '<' ∨ c = '>'))
      ∧ (sanitizeString v).length ≤ MAX_STRING_LENGTH
      ∧ (∀ c, (sanitizeString v).head? = some c → jsWhitespace c = false)
      ∧ ((∀ s, v ≠ some (.str s)) → sanitizeString v = [])
      ∧ (∀ s, v = some (.str s) →
          (trimJS (s.filter (fun c => ¬ (c = '<' ∨ c = '>')))).length ≤ MAX_STRING_LENGTH →
          trimJS (sanitizeString v) = sanitizeString v) := by
  refine ⟨?_, ?_, ?_, ?_, ?_⟩
  · intro c hc
    match v with
    | none => simp [sanitizeString] at hc
    | some .null | some (.bool _) | some (.num _) | some (.arr _) | some (.obj _) =>
      simp [sanitizeString] at hc
    | some (.str s) =>
      simp only [sanitizeString] at hc
      have h1 := List.take_subset MAX_STRING_LENGTH _ hc
      have h2 := mem_of_mem_trimJS h1
      have h3 := List.of_mem_filter h2
      simpa using h3
  · match v with
    | none => simp [sanitizeString]
    | some .null | some (.bool _) | some (.num _) | some (.arr _) | some (.obj _) =>
      simp [sanitizeString]
    | some (.str s) =>
      simp [sanitizeString, List.length_take]
  · intro c hc
    match v with
    | none => simp [sanitizeString] at hc
    | some .null | some (.bool _) | some (.num _) | some (.arr _) | some (.obj _) =>
      simp [sanitizeString] at hc
    | some (.str s) =>
      simp only [sanitizeString] at hc
      rw [head?_take_pos _ (by decide)] at hc
      unfold trimJS trimLeftJS at hc
      exact head?_dropWhile_not hc
  · intro hns
    match v with
    | none => rfl
    | some .null | some (.bool _) | some (.num _) | some (.arr _) | some (.obj _) => rfl
    | some (.str s) => exact absurd rfl (hns s)
  · intro s hv hlen
    subst hv
    simp only [sanitizeString]
    rw [List.take_of_length_le hlen]
    exact trimJS_idem _

/-! ## C6: validateNumber -/

/-- C6 counterexample: a number typed input is not coerced to an integer;
validateNumber of 2.5 over the multi idea count range returns 2.5, which is
not an integer. -/
theorem c6_fractional_result_cex :
    validateNumber (some (.num (5 / 2))) 1 5 3 = 5 / 2
      ∧ ∀ n : ℤ, ((5 : ℚ) / 2) ≠ (n : ℚ) := by
  constructor
  · dsimp only [validateNumber]
    rw [max_eq_left (by norm_num), min_eq_left (by norm_num)]
  · intro n h
    have h2 : (5 : ℚ) = n * 2 := (div_eq_iff (by norm_num)).mp h
    have h3 : (5 : ℤ) = n * 2 := by exact_mod_cast h2
    omega

theorem parseIntJS_integral (s : List Char) (q : ℚ) (hq : parseIntJS s = .real q) :
    ∃ n : ℤ, q = (n : ℚ) := by
  dsimp only [parseIntJS] at hq
  split at hq
  · exact absurd hq (by simp)
  · simp only [JSNum.real.injEq] at hq
    exact ⟨_, hq.symm⟩

/-- C6 amended: validateNumber never throws.  Number inputs pass through
unchanged up to clamping (so fractional numbers stay fractional); a string
input is coerced by parseInt, and the result is the default when that
coercion is NaN or the clamp of the coerced integer otherwise; every other
non-number input is coerced by parseInt of its stringification with the
same NaN-default and clamp behavior; an undefined input yields the
default; the result is always the default or in range; and multi idea
count 0 clamps to 1 while 999 clamps to 5. -/
theorem c6_validateNumber_clamps (val : Option JSVal) (lo hi dflt : ℚ) (h : lo ≤ hi) :
    (∀ q, val = some (.num q) → validateNumber val lo hi dflt = min (max q lo) hi)
      ∧ (∀ s, val = some (.str s) →
          (parseIntJS s = .nan → validateNumber val lo hi dflt = dflt)
            ∧ (∀ q, parseIntJS s = .real q →
                validateNumber val lo hi dflt = min (max q lo) hi ∧ ∃ n : ℤ, q = (n : ℚ)))
      ∧ (∀ v, val = some v → (∀ q, v ≠ .num q) → (∀ s, v ≠ .str s) →
          (parseIntJS (jsToString v) = .nan → validateNumber val lo hi dflt = dflt)
            ∧ (∀ q, parseIntJS (jsToString v) = .real q →
                validateNumber val lo hi dflt = min (max q lo) hi ∧ ∃ n : ℤ, q = (n : ℚ)))
      ∧ (val = none → validateNumber val lo hi dflt = dflt)
      ∧ (validateNumber val lo hi dflt = dflt
          ∨ (lo ≤ validateNumber val lo hi dflt ∧ validateNumber val lo hi dflt ≤ hi))
      ∧ validateNumber (some (.num 0)) 1 5 3 = 1
      ∧ validateNumber (some (.num 999)) 1 5 3 = 5 := by
  refine ⟨?_, ?_, ?_, ?_, ?_, by decide, by decide⟩
  · intro q hq
    subst hq
    rfl
  · intro s hs
    subst hs
    refine ⟨?_, ?_⟩
    · intro hnan
      dsimp only [validateNumber]
      rw [hnan]
    · intro q hq
      refine ⟨?_, parseIntJS_integral s q hq⟩
      dsimp only [validateNumber]
      rw [hq]
  · intro v hv hnum hstr
    subst hv
    cases v with
    | num q => exact absurd rfl (hnum q)
    | str s => exact absurd rfl (hstr s)
    | null =>
      refine ⟨fun hnan => ?_, fun q hq => ⟨?_, parseIntJS_integral _ q hq⟩⟩
      · dsimp only [validateNumber]
        rw [hnan]
      · dsimp only [validateNumber]
        rw [hq]
    | bool b =>
      refine ⟨fun hnan => ?_, fun q hq => ⟨?_, parseIntJS_integral _ q hq⟩⟩
      · dsimp only [validateNumber]
        rw [hnan]
      · dsimp only [validateNumber]
        rw [hq]
    | arr xs =>
      refine ⟨fun hnan => ?_, fun q hq => ⟨?_, parseIntJS_integral _ q hq⟩⟩
      · dsimp only [validateNumber]
        rw [hnan]
      · dsimp only [validateNumber]
        rw [hq]
    | obj fs =>
      refine ⟨fun hnan => ?_, fun q hq => ⟨?_, parseIntJS_integral _ q hq⟩⟩
      · dsimp only [validateNumber]
        rw [hnan]
      · dsimp only [validateNumber]
        rw [hq]
  · intro hnone
    subst hnone
    rfl
  · dsimp only [validateNumber]
    split
    · left; rfl
    · right
      constructor
      · exact le_min (le_max_right _ _) h
      · exact min_le_right _ _

/-- C6 witness: the amended theorem applied to string inputs over the
time range, exercising both the successful coercion (the string 7 is
parsed and clamped) and the NaN coercion (a non-numeric string yields
the default). -/
theorem c6_validateNumber_clamps_witness :
    (1 : ℚ) ≤ 365
      ∧ parseIntJS "7".toList = JSNum.real 7
      ∧ (validateNumber (some (.str "7".toList)) 1 365 7 = min (max 7 1) 365
          ∧ ∃ n : ℤ, (7 : ℚ) = (n : ℚ))
      ∧ parseIntJS "abc".toList = JSNum.nan
      ∧ validateNumber (some (.str "abc".toList)) 1 365 7 = 7 :=
  ⟨by norm_num, by decide,
    ((c6_validateNumber_clamps (some (.str "7".toList)) 1 365 7 (by norm_num)).2.1
      "7".toList rfl).2 7 (by decide),
    by decide,
    ((c6_validateNumber_clamps (some (.str "abc".toList)) 1 365 7 (by norm_num)).2.1
      "abc".toList rfl).1 (by decide)⟩

/-! ## C3: the fixed window rate limiter -/

theorem rateMap_set_same (m : RateMap) (k : List Char) (r : RateRecord) :
    (m.set k r) k = some r := by
  simp [RateMap.set]

theorem checkRateLimit_fresh (key : List Char) (now : ℤ) (m : RateMap)
    (h : m key = none) :
    checkRateLimit key now m
      = (⟨true, (RATE_LIMIT_MAX : ℤ) - 1⟩, m.set key ⟨1, now + RATE_LIMIT_WINDOW_MS⟩) := by
  unfold checkRateLimit
  rw [h]

theorem checkRateLimit_expired (key : List Char) (now : ℤ) (m : RateMap) (r : RateRecord)
    (h : m key = some r) (hexp : now > r.resetTime) :
    checkRateLimit key now m
      = (⟨true, (RATE_LIMIT_MAX : ℤ) - 1⟩, m.set key ⟨1, now + RATE_LIMIT_WINDOW_MS⟩) := by
  unfold checkRateLimit
  rw [h]
  simp [hexp]

theorem checkRateLimit_deny (key : List Char) (now : ℤ) (m : RateMap) (r : RateRecord)
    (h : m key = some r) (hin : ¬ now > r.resetTime) (hfull : RATE_LIMIT_MAX ≤ r.count) :
    checkRateLimit key now m = (⟨false, 0⟩, m) := by
  unfold checkRateLimit
  rw [h]
  simp [hin, hfull]

theorem checkRateLimit_increment (key : List Char) (now : ℤ) (m : RateMap) (r : RateRecord)
    (h : m key = some r) (hin : ¬ now > r.resetTime) (hlt : r.count < RATE_LIMIT_MAX) :
    checkRateLimit key now m
      = (⟨true, (RATE_LIMIT_MAX : ℤ) - (r.count + 1)⟩,
         m.set key ⟨r.count + 1, r.resetTime⟩) := by
  unfold checkRateLimit
  rw [h]
  have : ¬ RATE_LIMIT_MAX ≤ r.count := by omega
  simp [hin, this]

theorem runRateSeq_within (key : List Char) (resetT : ℤ) :
    ∀ (ts : List ℤ) (m : RateMap) (c : ℕ), m key = some ⟨c, resetT⟩ →
      (∀ t ∈ ts, t ≤ resetT) → c + ts.length ≤ RATE_LIMIT_MAX →
      (runRateSeq key ts m).1 = List.replicate ts.length true
        ∧ (runRateSeq key ts m).2 key = some ⟨c + ts.length, resetT⟩ := by
  intro ts
  induction ts with
  | nil =>
    intro m c hm _ _
    exact ⟨rfl, by simpa using hm⟩
  | cons t ts ih =>
    intro m c hm hts hcount
    have hin : ¬ t > resetT := by
      have := hts t (by simp)
      omega
    have hlt : c < RATE_LIMIT_MAX := by
      simp at hcount
      omega
    have hstep := checkRateLimit_increment key t m ⟨c, resetT⟩ hm hin hlt
    have hm2 : (checkRateLimit key t m).2 key = some ⟨c + 1, resetT⟩ := by
      rw [hstep]
      exact rateMap_set_same m key ⟨c + 1, resetT⟩
    have hrec := ih (checkRateLimit key t m).2 (c + 1) hm2
      (fun u hu => hts u (by simp [hu])) (by simp at hcount ⊢; omega)
    have hflags : (runRateSeq key (t :: ts) m).1
        = (checkRateLimit key t m).1.allowed :: (runRateSeq key ts (checkRateLimit key t m).2).1 :=
      rfl
    have hmaps : (runRateSeq key (t :: ts) m).2
        = (runRateSeq key ts (checkRateLimit key t m).2).2 := rfl
    constructor
    · rw [hflags, hrec.1, hstep]
      simp [List.replicate_succ]
    · rw [hmaps, hrec.2]
      have harith : c + 1 + ts.length = c + (t :: ts).length := by
        simp
        omega
      rw [harith]

theorem runRateSeq_append (key : List Char) (a b : List ℤ) :
    ∀ m : RateMap, (runRateSeq key (a ++ b) m).1
      = (runRateSeq key a m).1 ++ (runRateSeq key b (runRateSeq key a m).2).1 := by
  induction a with
  | nil => intro m; rfl
  | cons x xs ih =>
    intro m
    have h1 : (runRateSeq key ((x :: xs) ++ b) m).1
        = (checkRateLimit key x m).1.allowed
          :: (runRateSeq key (xs ++ b) (checkRateLimit key x m).2).1 := rfl
    have h2 : (runRateSeq key (x :: xs) m).1
        = (checkRateLimit key x m).1.allowed
          :: (runRateSeq key xs (checkRateLimit key x m).2).1 := rfl
    have h3 : (runRateSeq key (x :: xs) m).2
        = (runRateSeq key xs (checkRateLimit key x m).2).2 := rfl
    rw [h1, h2, h3, ih]
    rfl

/-- C3: the stored rate limit record follows the fixed window algorithm:
fresh or expired keys reset to count 1 with a new window and are allowed;
within the window a full counter denies without incrementing and leaves
the map unchanged; otherwise the counter increments and the request is
allowed; the per record count bound of 20 is preserved by every call; and
from a fresh key, 20 in-window requests are allowed while the 21st is
denied. -/
theorem c3_fixed_window_rate_limit :
    (∀ key now (m : RateMap), m key = none →
        checkRateLimit key now m
          = (⟨true, (RATE_LIMIT_MAX : ℤ) - 1⟩, m.set key ⟨1, now + RATE_LIMIT_WINDOW_MS⟩))
      ∧ (∀ key now (m : RateMap) r, m key = some r → now > r.resetTime →
          checkRateLimit key now m
            = (⟨true, (RATE_LIMIT_MAX : ℤ) - 1⟩, m.set key ⟨1, now + RATE_LIMIT_WINDOW_MS⟩))
      ∧ (∀ key now (m : RateMap) r, m key = some r → ¬ now > r.resetTime →
          RATE_LIMIT_MAX ≤ r.count → checkRateLimit key now m = (⟨false, 0⟩, m))
      ∧ (∀ key now (m : RateMap) r, m key = some r → ¬ now > r.resetTime →
          r.count < RATE_LIMIT_MAX →
          checkRateLimit key now m
            = (⟨true, (RATE_LIMIT_MAX : ℤ) - (r.count + 1)⟩,
               m.set key ⟨r.count + 1, r.resetTime⟩))
      ∧ (∀ key now (m : RateMap), (∀ k r, m k = some r → r.count ≤ RATE_LIMIT_MAX) →
          ∀ k r, (checkRateLimit key now m).2 k = some r → r.count ≤ RATE_LIMIT_MAX)
      ∧ (∀ key (m : RateMap) (t0 : ℤ) (ts : List ℤ), m key = none → ts.length = 20 →
          (∀ t ∈ ts, t ≤ t0 + RATE_LIMIT_WINDOW_MS) →
          (runRateSeq key (t0 :: ts) m).1 = List.replicate 20 true ++ [false]) := by
  refine ⟨checkRateLimit_fresh, checkRateLimit_expired, checkRateLimit_deny,
    checkRateLimit_increment, ?_, ?_⟩
  · intro key now m hbound k r hk
    rcases hm : m key with _ | record
    · rw [checkRateLimit_fresh key now m hm] at hk
      simp only [RateMap.set] at hk
      by_cases hkey : k = key
      · rw [if_pos hkey] at hk
        injection hk with hk2
        rw [← hk2]
        exact (by decide : (1 : ℕ) ≤ RATE_LIMIT_MAX)
      · rw [if_neg hkey] at hk
        exact hbound k r hk
    · by_cases hexp : now > record.resetTime
      · rw [checkRateLimit_expired key now m record hm hexp] at hk
        simp only [RateMap.set] at hk
        by_cases hkey : k = key
        · rw [if_pos hkey] at hk
          injection hk with hk2
          rw [← hk2]
          exact (by decide : (1 : ℕ) ≤ RATE_LIMIT_MAX)
        · rw [if_neg hkey] at hk
          exact hbound k r hk
      · by_cases hfull : RATE_LIMIT_MAX ≤ record.count
        · rw [checkRateLimit_deny key now m record hm hexp hfull] at hk
          exact hbound k r hk
        · rw [checkRateLimit_increment key now m record hm hexp (by omega)] at hk
          simp only [RateMap.set] at hk
          by_cases hkey : k = key
          · rw [if_pos hkey] at hk
            injection hk with hk2
            rw [← hk2]
            simp only []
            omega
          · rw [if_neg hkey] at hk
            exact hbound k r hk
  · intro key m t0 ts hfresh hlen hwin
    have hstep0 := checkRateLimit_fresh key t0 m hfresh
    have hm1 : (checkRateLimit key t0 m).2 key = some ⟨1, t0 + RATE_LIMIT_WINDOW_MS⟩ := by
      rw [hstep0]
      exact rateMap_set_same m key _
    obtain ⟨tl, htl⟩ : ∃ tl, ts.drop 19 = [tl] := by
      apply List.length_eq_one.mp
      simp [hlen]
    have hsplit : ts = ts.take 19 ++ [tl] := by
      rw [← htl]
      exact (List.take_append_drop 19 ts).symm
    have hlen19 : (ts.take 19).length = 19 := by
      simp [hlen]
    have h19 := runRateSeq_within key (t0 + RATE_LIMIT_WINDOW_MS) (ts.take 19)
      (checkRateLimit key t0 m).2 1 hm1
      (fun u hu => hwin u (List.take_subset 19 ts hu))
      (by rw [hlen19]; decide)
    rw [hlen19] at h19
    have htlmem : tl ∈ ts := by
      rw [hsplit]
      simp
    have hdeny := checkRateLimit_deny key tl
      (runRateSeq key (ts.take 19) (checkRateLimit key t0 m).2).2
      ⟨1 + 19, t0 + RATE_LIMIT_WINDOW_MS⟩
      h19.2
      (show ¬ tl > t0 + RATE_LIMIT_WINDOW_MS by
        have := hwin tl htlmem
        omega)
      (show RATE_LIMIT_MAX ≤ 1 + 19 by decide)
    conv_lhs => rw [hsplit]
    have hfirst : (runRateSeq key (t0 :: (ts.take 19 ++ [tl])) m).1
        = (checkRateLimit key t0 m).1.allowed
          :: (runRateSeq key (ts.take 19 ++ [tl]) (checkRateLimit key t0 m).2).1 := rfl
    rw [hfirst, runRateSeq_append key (ts.take 19) [tl] (checkRateLimit key t0 m).2, h19.1]
    have hlast : (runRateSeq key [tl]
          (runRateSeq key (ts.take 19) (checkRateLimit key t0 m).2).2).1
        = [(checkRateLimit key tl
            (runRateSeq key (ts.take 19) (checkRateLimit key t0 m).2).2).1.allowed] := rfl
    rw [hlast, hdeny, hstep0]
    rfl

/-- C3 witness: a fresh key receiving 21 requests at time 0; the theorem
yields 20 allowed then one denied. -/
theorem c3_fixed_window_rate_limit_witness :
    emptyRateMap "k".toList = none
      ∧ (List.replicate 20 (0 : ℤ)).length = 20
      ∧ (runRateSeq "k".toList ((0 : ℤ) :: List.replicate 20 0) emptyRateMap).1
          = List.replicate 20 true ++ [false] :=
  ⟨rfl, by decide,
    c3_fixed_window_rate_limit.2.2.2.2.2 "k".toList emptyRateMap 0 (List.replicate 20 0)
      rfl (by decide)
      (fun t ht => by rw [List.eq_of_mem_replicate ht]; decide)⟩

/-! ## Shared concrete requests and header lookup -/

/-- Whether a JSON value is null (property access on null throws). -/
def JSVal.isNull : JSVal → Bool
  | .null => true
  | _ => false

/-- Lookup of a response header by name. -/
def hdrLookup (hs : List (List Char × List Char)) (name : List Char) :
    Option (List Char) :=
  (hs.find? (fun h => h.1 = name)).map (fun h => h.2)

/-- A well formed POST request that passes every validation step. -/
def validPostRequest : RequestModel :=
  ⟨"POST".toList, none, none, none,
   some (.obj [("domain".toList, .str "fitness".toList),
               ("audience".toList, .str "students".toList),
               ("difficulty".toList, .str "beginner".toList),
               ("mode".toList, .str "hackathon".toList)])⟩

/-- A POST request whose declared content length is 10001 bytes. -/
def oversizedRequest : RequestModel :=
  ⟨"POST".toList, none, none, some "10001".toList, some (.obj [])⟩

/-! ## C10: OPTIONS short-circuits before the rate limiter -/

/-- C10: every OPTIONS request is answered with the empty bodied CORS
response before the rate limit check runs, so the rate limit map is
returned unchanged. -/
theorem c10_options_preserves_rate_map (req : RequestModel) (now : ℤ)
    (gw : GatewayOutcome) (m : RateMap) (h : req.method = "OPTIONS".toList) :
    serveHandler req now gw m = (⟨200, corsHeaders, .empty⟩, m) := by
  unfold serveHandler
  rw [if_pos h]

/-- C10 witness: a concrete OPTIONS request against the empty map. -/
theorem c10_options_preserves_rate_map_witness :
    (⟨"OPTIONS".toList, none, none, none, none⟩ : RequestModel).method = "OPTIONS".toList
      ∧ serveHandler ⟨"OPTIONS".toList, none, none, none, none⟩ 0 .fetchFailure emptyRateMap
          = (⟨200, corsHeaders, .empty⟩, emptyRateMap) :=
  ⟨rfl, c10_options_preserves_rate_map ⟨"OPTIONS".toList, none, none, none, none⟩ 0
    .fetchFailure emptyRateMap rfl⟩

/-! ## C2: the size check runs after the rate limit check -/

/-- C2 counterexample: an oversized request against the empty map is
answered with 413, yet the rate limit entry for its key changes from
absent to count 1, so the oversized request does consume a slot. -/
theorem c2_oversized_consumes_slot_cex :
    (serveHandler oversizedRequest 0 .fetchFailure emptyRateMap).1.status = 413
      ∧ emptyRateMap "unknown".toList = none
      ∧ (serveHandler oversizedRequest 0 .fetchFailure emptyRateMap).2 "unknown".toList
          = some ⟨1, RATE_LIMIT_WINDOW_MS⟩ :=
  ⟨by decide, rfl, by decide⟩

/-- C2 amended: a non OPTIONS request with oversized declared content
length is rejected with 413 only when the rate limit check allows it (429
otherwise), and in both cases the rate limit map is the map produced by
the check, so the oversized request consumes a rate limit slot. -/
theorem c2_size_check_after_rate_limit (req : RequestModel) (now : ℤ)
    (gw : GatewayOutcome) (m : RateMap) (hm : req.method ≠ "OPTIONS".toList)
    (hs : sizeExceeded req.contentLength = true) :
    (serveHandler req now gw m).2
        = (checkRateLimit (getRateLimitKey req.xForwardedFor req.xRealIp) now m).2
      ∧ (serveHandler req now gw m).1
          = if (checkRateLimit (getRateLimitKey req.xForwardedFor req.xRealIp) now m).1.allowed
            then mkJsonError 413 "Request too large".toList
            else rateLimitedLocal := by
  unfold serveHandler
  rw [if_neg hm]
  by_cases hab : (checkRateLimit (getRateLimitKey req.xForwardedFor req.xRealIp) now m).1.allowed
  · rw [if_neg (by simp [hab])]
    refine ⟨rfl, ?_⟩
    rw [if_pos hab]
    unfold tryStage
    rw [if_pos hs]
  · have hfalse : (checkRateLimit (getRateLimitKey req.xForwardedFor req.xRealIp) now m).1.allowed
        = false := by
      revert hab
      cases (checkRateLimit (getRateLimitKey req.xForwardedFor req.xRealIp) now m).1.allowed <;>
        simp
    rw [if_pos hfalse]
    refine ⟨rfl, ?_⟩
    rw [if_neg hab]

/-- C2 witness: the amended theorem applied to the oversized request. -/
theorem c2_size_check_after_rate_limit_witness :
    oversizedRequest.method ≠ "OPTIONS".toList
      ∧ sizeExceeded oversizedRequest.contentLength = true
      ∧ ((serveHandler oversizedRequest 0 .fetchFailure emptyRateMap).2
            = (checkRateLimit (getRateLimitKey oversizedRequest.xForwardedFor
                oversizedRequest.xRealIp) 0 emptyRateMap).2
        ∧ (serveHandler oversizedRequest 0 .fetchFailure emptyRateMap).1
            = if (checkRateLimit (getRateLimitKey oversizedRequest.xForwardedFor
                  oversizedRequest.xRealIp) 0 emptyRateMap).1.allowed
              then mkJsonError 413 "Request too large".toList
              else rateLimitedLocal) :=
  ⟨by decide, by decide,
    c2_size_check_after_rate_limit oversizedRequest 0 .fetchFailure emptyRateMap
      (by decide) (by decide)⟩

/-! ## C9: CORS headers on every response -/

theorem cors_mem_corsHeaders :
    ("Access-Control-Allow-Origin".toList, "*".toList) ∈ corsHeaders := by
  simp [corsHeaders]

theorem cors_mem_append (l : List (List Char × List Char)) :
    ("Access-Control-Allow-Origin".toList, "*".toList) ∈ corsHeaders ++ l :=
  List.mem_append_left l cors_mem_corsHeaders

/-- C9: every response the handler emits, for every request, time, map and
gateway outcome, carries the permissive CORS origin header. -/
theorem c9_cors_on_every_response (req : RequestModel) (now : ℤ)
    (gw : GatewayOutcome) (m : RateMap) :
    ("Access-Control-Allow-Origin".toList, "*".toList)
      ∈ (serveHandler req now gw m).1.headers := by
  unfold serveHandler tryStage validateStage gatewayStage
  dsimp only
  repeat' split
  all_goals first
    | exact cors_mem_corsHeaders
    | exact cors_mem_append _

/-! ## C4: Retry-After on 429 responses -/

theorem responseRecovery_error_status (t : List Char) (s : ℕ) (msg : List Char)
    (h : responseRecovery t = .error (s, msg)) : s = 500 := by
  dsimp only [responseRecovery] at h
  split at h
  · exact absurd h (by simp)
  · split at h
    · split at h
      · exact absurd h (by simp)
      · simp only [Except.error.injEq, Prod.mk.injEq] at h
        exact h.1.symm
    · simp only [Except.error.injEq, Prod.mk.injEq] at h
      exact h.1.symm

/-- Every handler response is one of the two 429 shapes or has another
status; used to settle which 429 responses exist. -/
theorem serveHandler_429_forms (req : RequestModel) (now : ℤ)
    (gw : GatewayOutcome) (m : RateMap) :
    (serveHandler req now gw m).1 = rateLimitedLocal
      ∨ (serveHandler req now gw m).1
          = mkJsonError 429 "Rate limit exceeded. Please try again in a moment.".toList
      ∨ (serveHandler req now gw m).1.status ≠ 429 := by
  unfold serveHandler tryStage validateStage gatewayStage
  dsimp only
  repeat' split
  all_goals
    first
      | exact Or.inl rfl
      | exact Or.inr (Or.inl rfl)
      | exact Or.inr (Or.inr (by exact (by decide : ¬ (413 : ℕ) = 429)))
      | exact Or.inr (Or.inr (by exact (by decide : ¬ (500 : ℕ) = 429)))
      | exact Or.inr (Or.inr (by exact (by decide : ¬ (400 : ℕ) = 429)))
      | exact Or.inr (Or.inr (by exact (by decide : ¬ (402 : ℕ) = 429)))
      | exact Or.inr (Or.inr (by exact (by decide : ¬ (200 : ℕ) = 429)))
      | (rename_i e heq
         obtain ⟨s1, msg1⟩ := e
         have h500 := responseRecovery_error_status _ s1 msg1 heq
         exact Or.inr (Or.inr (by
           show ¬ s1 = 429
           omega)))

/-- C4 counterexample: a request that reaches the gateway and receives a
gateway 429 is answered with HTTP 429, but the response carries no
Retry-After header, refuting the claim that every 429 carries one. -/
theorem c4_gateway_429_lacks_retry_after_cex :
    (serveHandler validPostRequest 0 (.reply 429 none) emptyRateMap).1.status = 429
      ∧ hdrLookup (serveHandler validPostRequest 0 (.reply 429 none) emptyRateMap).1.headers
          "Retry-After".toList = none :=
  ⟨by decide, by decide⟩

/-- C4 amended: a 429 from the handler is either the local rate limit
denial, which carries Retry-After 3600, or the response mapped from a
gateway 429, which carries no Retry-After header. -/
theorem c4_retry_after_on_local_429_only :
    (∀ req now gw (m : RateMap), (serveHandler req now gw m).1.status = 429 →
        (serveHandler req now gw m).1 = rateLimitedLocal
          ∨ (serveHandler req now gw m).1
              = mkJsonError 429 "Rate limit exceeded. Please try again in a moment.".toList)
      ∧ hdrLookup rateLimitedLocal.headers "Retry-After".toList = some "3600".toList
      ∧ hdrLookup (mkJsonError 429
          "Rate limit exceeded. Please try again in a moment.".toList).headers
          "Retry-After".toList = none := by
  refine ⟨?_, by decide, by decide⟩
  intro req now gw m hst
  rcases serveHandler_429_forms req now gw m with h | h | h
  · exact Or.inl h
  · exact Or.inr h
  · exact absurd hst h

/-- C4 witness: the amended theorem applied to the request that draws the
gateway mapped 429. -/
theorem c4_retry_after_on_local_429_only_witness :
    (serveHandler validPostRequest 0 (.reply 429 none) emptyRateMap).1.status = 429
      ∧ ((serveHandler validPostRequest 0 (.reply 429 none) emptyRateMap).1 = rateLimitedLocal
        ∨ (serveHandler validPostRequest 0 (.reply 429 none) emptyRateMap).1
            = mkJsonError 429 "Rate limit exceeded. Please try again in a moment.".toList) :=
  ⟨by decide,
    c4_retry_after_on_local_429_only.1 validPostRequest 0 (.reply 429 none) emptyRateMap
      (by decide)⟩

/-! ## C7: gateway failure mapping -/

/-- A request body that passes the required field and enumeration checks. -/
def passesValidation (body : JSVal) : Prop :=
  body.isNull = false
    ∧ sanitizeString (jfield body "domain".toList) ≠ []
    ∧ sanitizeString (jfield body "audience".toList) ≠ []
    ∧ sanitizeString (jfield body "difficulty".toList) ≠ []
    ∧ sanitizeString (jfield body "mode".toList) ≠ []
    ∧ toLowerStr (sanitizeString (jfield body "difficulty".toList)) ∈ VALID_DIFFICULTIES
    ∧ toLowerStr (sanitizeString (jfield body "mode".toList)) ∈ VALID_MODES

/-- C7: each non success gateway status maps to exactly one caller facing
error (429 to 429, 402 to 402, anything else to 500), a transport failure
maps to the stable catch-all 500, and for every validated body the handler
response is exactly this mapping. -/
theorem c7_gateway_error_mapping :
    (∀ (status : ℕ) (content : Option (List Char)), ¬ (200 ≤ status ∧ status ≤ 299) →
        gatewayStage (.reply status content)
          = if status = 429 then
              mkJsonError 429 "Rate limit exceeded. Please try again in a moment.".toList
            else if status = 402 then
              mkJsonError 402 "AI credits exhausted. Please contact support.".toList
            else mkJsonError 500 "Service temporarily unavailable. Please try again.".toList)
      ∧ gatewayStage .fetchFailure = unexpectedError
      ∧ unexpectedError = mkJsonError 500 "An unexpected error occurred. Please try again.".toList
      ∧ (∀ (body : JSVal) (gw : GatewayOutcome), passesValidation body →
          validateStage body gw = gatewayStage gw) := by
  refine ⟨?_, rfl, rfl, ?_⟩
  · intro status content hne
    unfold gatewayStage
    dsimp only
    rw [if_pos hne]
  · intro body gw hv
    obtain ⟨hnn, hd, ha, hdiff, hm, hdl, hml⟩ := hv
    unfold validateStage
    cases body
    case null => simp [JSVal.isNull] at hnn
    all_goals
      dsimp only
      rw [if_neg (by push_neg; exact ⟨hd, ha, hdiff, hm⟩),
          if_neg (not_not_intro hdl), if_neg (not_not_intro hml)]

/-- C7 witness: gateway status 503 on a validated body maps to the 500
service unavailable response. -/
theorem c7_gateway_error_mapping_witness :
    ¬ (200 ≤ 503 ∧ 503 ≤ 299)
      ∧ gatewayStage (.reply 503 none)
          = if 503 = 429 then
              mkJsonError 429 "Rate limit exceeded. Please try again in a moment.".toList
            else if 503 = 402 then
              mkJsonError 402 "AI credits exhausted. Please contact support.".toList
            else mkJsonError 500 "Service temporarily unavailable. Please try again.".toList :=
  ⟨by decide, c7_gateway_error_mapping.1 503 none (by decide)⟩

/-! ## C1: a structure without an ideas array can reach the caller as 200 -/

/-- The gateway reply the system prompt itself prescribes on failure. -/
def noIdeasReply : List Char := "\x7b\"error\": \"could not produce json\"\x7d".toList

/-- C1: the ideas array check only guards the direct parse; its throw is
swallowed by the catch whose brace extraction fallback re-parses the same
object and returns it, so this reply reaches the caller with HTTP 200 and
a body with no ideas array, while the claim and the spec require a 500. -/
theorem c1_missing_ideas_returned_with_200 :
    (serveHandler validPostRequest 0 (.reply 200 (some noIdeasReply)) emptyRateMap).1.status
        = 200
      ∧ (serveHandler validPostRequest 0 (.reply 200 (some noIdeasReply)) emptyRateMap).1.body
          = .json (.obj [("error".toList, .str "could not produce json".toList)])
      ∧ (jsonParse noIdeasReply).map hasIdeasList = some false
      ∧ responseRecovery noIdeasReply
          = .ok (.obj [("error".toList, .str "could not produce json".toList)]) :=
  ⟨rfl, rfl, rfl, rfl⟩

/-! ## C8: fence wrapping does not change the recovered result -/

def fenceNl : List Char := ['\n', '`', '`', '`']

def fenceTicks : List Char := ['`', '`', '`']

-- cons equation for the json scanner under non-match hypotheses
theorem rjson_cons (c : Char) (cs : List Char)
    (h1 : ∀ rest, c :: cs ≠ '`' :: '`' :: '`' :: 'j' :: 's' :: 'o' :: 'n' :: '\n' :: rest)
    (h2 : ∀ rest, c :: cs ≠ '`' :: '`' :: '`' :: 'j' :: 's' :: 'o' :: 'n' :: rest) :
    removeJsonFenceTags (c :: cs) = c :: removeJsonFenceTags cs := by
  rw [removeJsonFenceTags.eq_def]
  split
  · rename_i rest heq
    exact absurd heq (h1 rest)
  · rename_i rest hne heq
    exact absurd heq (h2 rest)
  · rename_i c2 cs2 hno1 hno2 heq
    injection heq with e1 e2
    subst e1
    subst e2
    rfl
  · rename_i heq
    exact absurd heq (by simp)

-- stepping over a matched tag whose optional newline is absent
theorem rjson_step2 (d : Char) (x : List Char) (h : d ≠ '\n') :
    removeJsonFenceTags ('`' :: '`' :: '`' :: 'j' :: 's' :: 'o' :: 'n' :: d :: x)
      = removeJsonFenceTags (d :: x) := by
  rw [removeJsonFenceTags.eq_def]
  split
  · rename_i rest heq
    simp at heq
    exact absurd heq.1 h
  · rename_i rest hne heq
    simp at heq
    rw [← heq]
  · rename_i c2 cs2 hno1 hno2 heq
    injection heq with e1 e2
    exact absurd e2.symm (fun hcs => hno2 (d :: x) e1.symm hcs)
  · rename_i heq
    exact absurd heq (by simp)

theorem rjson_append_fenceNl (c : Char) (cs : List Char)
    (h1 : ∀ rest, c = '`' → cs = '`' :: '`' :: 'j' :: 's' :: 'o' :: 'n' :: '\n' :: rest → False)
    (h2 : ∀ rest, c = '`' → cs = '`' :: '`' :: 'j' :: 's' :: 'o' :: 'n' :: rest → False) :
    removeJsonFenceTags ((c :: cs) ++ fenceNl)
      = c :: removeJsonFenceTags (cs ++ fenceNl) := by
  apply rjson_cons
  · intro rest heq
    injection heq with e1 e2
    rcases cs with _ | ⟨a, _ | ⟨b, _ | ⟨d, _ | ⟨e, _ | ⟨f, _ | ⟨g, cs2⟩⟩⟩⟩⟩⟩
    · simp [fenceNl, List.append_eq] at e2
    · simp [fenceNl, List.append_eq] at e2
    · simp [fenceNl, List.append_eq] at e2
    · simp [fenceNl, List.append_eq] at e2
    · simp [fenceNl, List.append_eq] at e2
    · simp [fenceNl, List.append_eq] at e2
    · simp [fenceNl, List.append_eq] at e2
      exact h2 cs2 e1
        (by rw [e2.1, e2.2.1, e2.2.2.1, e2.2.2.2.1, e2.2.2.2.2.1, e2.2.2.2.2.2.1])
  · intro rest heq
    injection heq with e1 e2
    rcases cs with _ | ⟨a, _ | ⟨b, _ | ⟨d, _ | ⟨e, _ | ⟨f, _ | ⟨g, cs2⟩⟩⟩⟩⟩⟩
    · simp [fenceNl, List.append_eq] at e2
    · simp [fenceNl, List.append_eq] at e2
    · simp [fenceNl, List.append_eq] at e2
    · simp [fenceNl, List.append_eq] at e2
    · simp [fenceNl, List.append_eq] at e2
    · simp [fenceNl, List.append_eq] at e2
    · simp [fenceNl, List.append_eq] at e2
      exact h2 cs2 e1
        (by rw [e2.1, e2.2.1, e2.2.2.1, e2.2.2.2.1, e2.2.2.2.2.1, e2.2.2.2.2.2.1])

theorem rjson_tail : ∀ s : List Char,
    removeJsonFenceTags (s ++ fenceNl) = removeJsonFenceTags s ++ fenceNl
      ∨ removeJsonFenceTags (s ++ fenceNl) = removeJsonFenceTags s ++ fenceTicks := by
  intro s
  induction s using removeJsonFenceTags.induct with
  | case1 rest ih =>
    simpa using ih
  | case2 rest hne ih =>
    rcases rest with _ | ⟨d, rest2⟩
    · right
      decide
    · have hd : d ≠ '\n' := fun h => hne rest2 (by rw [h])
      have e1 := rjson_step2 d rest2 hd
      have e2 : removeJsonFenceTags
            (('`' :: '`' :: '`' :: 'j' :: 's' :: 'o' :: 'n' :: d :: rest2) ++ fenceNl)
          = removeJsonFenceTags ((d :: rest2) ++ fenceNl) := by
        simpa using rjson_step2 d (rest2 ++ fenceNl) hd
      rw [e1, e2]
      simpa using ih
  | case3 c cs h1 h2 ih =>
    rw [rjson_append_fenceNl c cs h1 h2]
    have e4 : removeJsonFenceTags (c :: cs) = c :: removeJsonFenceTags cs := by
      apply rjson_cons
      · intro rest heq
        simp at heq
        exact h1 rest heq.1 heq.2
      · intro rest heq
        simp at heq
        exact h2 rest heq.1 heq.2
    rw [e4]
    rcases ih with h | h
    · left
      simp [h]
    · right
      simp [h]
  | case4 =>
    left
    decide

-- header lemmas
theorem rjson_header (s : List Char) :
    removeJsonFenceTags ('`' :: '`' :: '`' :: 'j' :: 's' :: 'o' :: 'n' :: '\n' :: s)
      = removeJsonFenceTags s := rfl

theorem rjson_plain_header (s : List Char) :
    removeJsonFenceTags ('`' :: '`' :: '`' :: '\n' :: s)
      = '`' :: '`' :: '`' :: '\n' :: removeJsonFenceTags s := rfl

theorem rfence_cons (c : Char) (cs : List Char)
    (h1 : ∀ rest, c :: cs ≠ '`' :: '`' :: '`' :: '\n' :: rest)
    (h2 : ∀ rest, c :: cs ≠ '`' :: '`' :: '`' :: rest) :
    removeFenceTags (c :: cs) = c :: removeFenceTags cs := by
  rw [removeFenceTags.eq_def]
  split
  · rename_i rest heq
    exact absurd heq (h1 rest)
  · rename_i rest hne heq
    exact absurd heq (h2 rest)
  · rename_i c2 cs2 hno1 hno2 heq
    injection heq with e1 e2
    subst e1
    subst e2
    rfl
  · rename_i heq
    exact absurd heq (by simp)

theorem rfence_step2 (d : Char) (x : List Char) (h : d ≠ '\n') :
    removeFenceTags ('`' :: '`' :: '`' :: d :: x) = removeFenceTags (d :: x) := by
  rw [removeFenceTags.eq_def]
  split
  · rename_i rest heq
    simp at heq
    exact absurd heq.1 h
  · rename_i rest hne heq
    simp at heq
    rw [← heq]
  · rename_i c2 cs2 hno1 hno2 heq
    injection heq with e1 e2
    exact absurd e2.symm (fun hcs => hno2 (d :: x) e1.symm hcs)
  · rename_i heq
    exact absurd heq (by simp)

theorem rfence_tail_ticks : ∀ x : List Char,
    removeFenceTags (x ++ fenceTicks) = removeFenceTags x := by
  intro x
  induction x using removeFenceTags.induct with
  | case1 rest ih =>
    simpa using ih
  | case2 rest hne ih =>
    rcases rest with _ | ⟨d, rest2⟩
    · decide
    · have e1 : d ≠ '\n' := fun h => hne rest2 (by rw [h])
      have e2 : removeFenceTags (('`' :: '`' :: '`' :: d :: rest2) ++ fenceTicks)
          = removeFenceTags ((d :: rest2) ++ fenceTicks) := by
        simpa using rfence_step2 d (rest2 ++ fenceTicks) e1
      rw [e2, rfence_step2 d rest2 e1]
      exact ih
  | case3 c cs h1 h2 ih =>
    rcases cs with _ | ⟨a, _ | ⟨b, cs2⟩⟩
    · by_cases hc : c = '`'
      · subst hc
        decide
      · have hL : removeFenceTags (c :: fenceTicks) = c :: removeFenceTags fenceTicks :=
          rfence_cons c fenceTicks
            (by intro rest heq; simp [fenceTicks] at heq)
            (by intro rest heq; simp [fenceTicks] at heq; exact hc heq.1)
        have hR : removeFenceTags [c] = c :: removeFenceTags [] :=
          rfence_cons c []
            (by intro rest heq; simp at heq)
            (by intro rest heq; simp at heq)
        have hT : removeFenceTags fenceTicks = removeFenceTags [] := by decide
        show removeFenceTags (c :: fenceTicks) = removeFenceTags [c]
        rw [hL, hR, hT]
    · by_cases hca : c = '`' ∧ a = '`'
      · obtain ⟨hc0, ha0⟩ := hca
        subst hc0
        subst ha0
        decide
      · have hL : removeFenceTags (c :: a :: fenceTicks)
            = c :: removeFenceTags (a :: fenceTicks) :=
          rfence_cons c (a :: fenceTicks)
            (by intro rest heq; simp [fenceTicks] at heq)
            (by intro rest heq; simp [fenceTicks] at heq; exact hca ⟨heq.1, heq.2.1⟩)
        have hR : removeFenceTags [c, a] = c :: removeFenceTags [a] :=
          rfence_cons c [a]
            (by intro rest heq; simp at heq)
            (by intro rest heq; simp at heq)
        have ih2 : removeFenceTags (a :: fenceTicks) = removeFenceTags [a] := by
          simpa using ih
        show removeFenceTags (c :: a :: fenceTicks) = removeFenceTags [c, a]
        rw [hL, ih2, hR]
    · have hL : removeFenceTags (c :: a :: b :: (cs2 ++ fenceTicks))
          = c :: removeFenceTags (a :: b :: (cs2 ++ fenceTicks)) :=
        rfence_cons c (a :: b :: (cs2 ++ fenceTicks))
          (by
            intro rest heq
            simp at heq
            exact h2 cs2 heq.1 (by rw [heq.2.1, heq.2.2.1]))
          (by
            intro rest heq
            simp at heq
            exact h2 cs2 heq.1 (by rw [heq.2.1, heq.2.2.1]))
      have hR : removeFenceTags (c :: a :: b :: cs2)
          = c :: removeFenceTags (a :: b :: cs2) :=
        rfence_cons c (a :: b :: cs2)
          (by
            intro rest heq
            simp at heq
            exact h2 cs2 heq.1 (by rw [heq.2.1, heq.2.2.1]))
          (by
            intro rest heq
            simp at heq
            exact h2 cs2 heq.1 (by rw [heq.2.1, heq.2.2.1]))
      have ih2 : removeFenceTags (a :: b :: (cs2 ++ fenceTicks))
          = removeFenceTags (a :: b :: cs2) := by
        simpa using ih
      show removeFenceTags (c :: a :: b :: (cs2 ++ fenceTicks))
          = removeFenceTags (c :: a :: b :: cs2)
      rw [hL, ih2, hR]
  | case4 =>
    decide

theorem rfence_tail_nl : ∀ x : List Char,
    removeFenceTags (x ++ fenceNl) = removeFenceTags x ++ ['\n']
      ∨ removeFenceTags (x ++ fenceNl) = removeFenceTags x := by
  intro x
  induction x using removeFenceTags.induct with
  | case1 rest ih =>
    simpa using ih
  | case2 rest hne ih =>
    rcases rest with _ | ⟨d, rest2⟩
    · right
      decide
    · have e1 : d ≠ '\n' := fun h => hne rest2 (by rw [h])
      have e2 : removeFenceTags (('`' :: '`' :: '`' :: d :: rest2) ++ fenceNl)
          = removeFenceTags ((d :: rest2) ++ fenceNl) := by
        simpa using rfence_step2 d (rest2 ++ fenceNl) e1
      rw [e2, rfence_step2 d rest2 e1]
      simpa using ih
  | case3 c cs h1 h2 ih =>
    rcases cs with _ | ⟨a, _ | ⟨b, cs2⟩⟩
    · have hL : removeFenceTags (c :: fenceNl) = c :: removeFenceTags fenceNl :=
        rfence_cons c fenceNl
          (by intro rest heq; simp [fenceNl] at heq)
          (by intro rest heq; simp [fenceNl] at heq)
      have hR : removeFenceTags [c] = c :: removeFenceTags [] :=
        rfence_cons c []
          (by intro rest heq; simp at heq)
          (by intro rest heq; simp at heq)
      have hT : removeFenceTags fenceNl = ['\n'] := by decide
      left
      show removeFenceTags (c :: fenceNl) = removeFenceTags [c] ++ ['\n']
      rw [hL, hR, hT]
      rfl
    · have hL : removeFenceTags (c :: a :: fenceNl)
          = c :: removeFenceTags (a :: fenceNl) :=
        rfence_cons c (a :: fenceNl)
          (by intro rest heq; simp [fenceNl] at heq)
          (by intro rest heq; simp [fenceNl] at heq)
      have hR : removeFenceTags [c, a] = c :: removeFenceTags [a] :=
        rfence_cons c [a]
          (by intro rest heq; simp at heq)
          (by intro rest heq; simp at heq)
      have ih2 : removeFenceTags (a :: fenceNl) = removeFenceTags [a] ++ ['\n']
          ∨ removeFenceTags (a :: fenceNl) = removeFenceTags [a] := by
        simpa using ih
      show removeFenceTags (c :: a :: fenceNl) = removeFenceTags [c, a] ++ ['\n']
          ∨ removeFenceTags (c :: a :: fenceNl) = removeFenceTags [c, a]
      rw [hL, hR]
      rcases ih2 with h | h
      · left
        rw [h]
        rfl
      · right
        rw [h]
    · have hL : removeFenceTags (c :: a :: b :: (cs2 ++ fenceNl))
          = c :: removeFenceTags (a :: b :: (cs2 ++ fenceNl)) :=
        rfence_cons c (a :: b :: (cs2 ++ fenceNl))
          (by
            intro rest heq
            simp at heq
            exact h2 cs2 heq.1 (by rw [heq.2.1, heq.2.2.1]))
          (by
            intro rest heq
            simp at heq
            exact h2 cs2 heq.1 (by rw [heq.2.1, heq.2.2.1]))
      have hR : removeFenceTags (c :: a :: b :: cs2)
          = c :: removeFenceTags (a :: b :: cs2) :=
        rfence_cons c (a :: b :: cs2)
          (by
            intro rest heq
            simp at heq
            exact h2 cs2 heq.1 (by rw [heq.2.1, heq.2.2.1]))
          (by
            intro rest heq
            simp at heq
            exact h2 cs2 heq.1 (by rw [heq.2.1, heq.2.2.1]))
      have ih2 : removeFenceTags (a :: b :: (cs2 ++ fenceNl))
            = removeFenceTags (a :: b :: cs2) ++ ['\n']
          ∨ removeFenceTags (a :: b :: (cs2 ++ fenceNl))
            = removeFenceTags (a :: b :: cs2) := by
        simpa using ih
      show removeFenceTags (c :: a :: b :: (cs2 ++ fenceNl))
            = removeFenceTags (c :: a :: b :: cs2) ++ ['\n']
          ∨ removeFenceTags (c :: a :: b :: (cs2 ++ fenceNl))
            = removeFenceTags (c :: a :: b :: cs2)
      rw [hL, hR]
      rcases ih2 with h | h
      · left
        rw [h]
        rfl
      · right
        rw [h]
  | case4 =>
    left
    decide

/-- The gateway reply wrapped in a json tagged markdown fence with
surrounding newlines. -/
def fenceWrapJson (j : List Char) : List Char :=
  "```json\n".toList ++ (j ++ "\n```".toList)

/-- The gateway reply wrapped in an untagged markdown fence with
surrounding newlines. -/
def fenceWrapPlain (j : List Char) : List Char :=
  "```\n".toList ++ (j ++ "\n```".toList)

theorem cleanContent_fenceWrapJson (j : List Char) :
    cleanContent (fenceWrapJson j) = cleanContent j := by
  have h0 : cleanContent (fenceWrapJson j)
      = trimJS (removeFenceTags (removeJsonFenceTags (j ++ fenceNl))) := rfl
  rw [h0]
  unfold cleanContent
  rcases rjson_tail j with h | h
  · rw [h]
    rcases rfence_tail_nl (removeJsonFenceTags j) with h2 | h2
    · rw [h2]
      exact trimJS_append_newline _
    · rw [h2]
  · rw [h, rfence_tail_ticks]

theorem cleanContent_fenceWrapPlain (j : List Char) :
    cleanContent (fenceWrapPlain j) = cleanContent j := by
  have h0 : cleanContent (fenceWrapPlain j)
      = trimJS (removeFenceTags
          ('`' :: '`' :: '`' :: '\n' :: removeJsonFenceTags (j ++ fenceNl))) := by
    have h1 : removeJsonFenceTags (fenceWrapPlain j)
        = '`' :: '`' :: '`' :: '\n' :: removeJsonFenceTags (j ++ fenceNl) := rfl
    unfold cleanContent
    rw [h1]
  rw [h0]
  have h2 : removeFenceTags ('`' :: '`' :: '`' :: '\n'
      :: removeJsonFenceTags (j ++ fenceNl))
      = removeFenceTags (removeJsonFenceTags (j ++ fenceNl)) := rfl
  rw [h2]
  unfold cleanContent
  rcases rjson_tail j with h | h
  · rw [h]
    rcases rfence_tail_nl (removeJsonFenceTags j) with h3 | h3
    · rw [h3]
      exact trimJS_append_newline _
    · rw [h3]
  · rw [h, rfence_tail_ticks]

theorem braceExtract_wrap (a b j : List Char)
    (ha : ∀ c ∈ a, ¬ c = '\x7b')
    (hb1 : ∀ c ∈ b, ¬ c = '\x7b')
    (hb2 : ∀ c ∈ b, ¬ c = '\x7d') :
    braceExtract (a ++ (j ++ b)) = braceExtract j := by
  unfold braceExtract
  dsimp only
  have hadrop : a.dropWhile (fun c => ¬ c = '\x7b') = [] :=
    List.dropWhile_eq_nil_iff.mpr (fun x hx => by simpa using ha x hx)
  have h1 : (a ++ (j ++ b)).dropWhile (fun c => ¬ c = '\x7b')
      = (j ++ b).dropWhile (fun c => ¬ c = '\x7b') := by
    rw [List.dropWhile_append, hadrop]
    simp
  rw [h1]
  cases hj : j.dropWhile (fun c => ¬ c = '\x7b') with
  | nil =>
    have hbdrop : b.dropWhile (fun c => ¬ c = '\x7b') = [] :=
      List.dropWhile_eq_nil_iff.mpr (fun x hx => by simpa using hb1 x hx)
    have h2 : (j ++ b).dropWhile (fun c => ¬ c = '\x7b') = [] := by
      rw [List.dropWhile_append, hj]
      simpa using hbdrop
    rw [h2]
  | cons d ds =>
    have h2 : (j ++ b).dropWhile (fun c => ¬ c = '\x7b')
        = j.dropWhile (fun c => ¬ c = '\x7b') ++ b := by
      rw [List.dropWhile_append, hj]
      simp
    rw [h2, hj]
    have hbrev : b.reverse.dropWhile (fun c => ¬ c = '\x7d') = [] :=
      List.dropWhile_eq_nil_iff.mpr
        (fun x hx => by simpa using hb2 x (List.mem_reverse.mp hx))
    have h3 : ((d :: ds) ++ b).reverse.dropWhile (fun c => ¬ c = '\x7d')
        = (d :: ds).reverse.dropWhile (fun c => ¬ c = '\x7d') := by
      rw [List.reverse_append, List.dropWhile_append, hbrev]
      simp
    rw [h3]

theorem braceExtract_fenceWrapJson (j : List Char) :
    braceExtract (fenceWrapJson j) = braceExtract j :=
  braceExtract_wrap "```json\n".toList "\n```".toList j
    (by decide) (by decide) (by decide)

theorem braceExtract_fenceWrapPlain (j : List Char) :
    braceExtract (fenceWrapPlain j) = braceExtract j :=
  braceExtract_wrap "```\n".toList "\n```".toList j
    (by decide) (by decide) (by decide)

/-- C8: wrapping a gateway reply in markdown code fences (with or without
the json language tag, with surrounding newlines) changes neither the
cleaned text, nor the brace extracted substring, nor the recovered result:
the recovery parser treats the fenced and unfenced reply identically. -/
theorem c8_fence_equivalence (j : List Char) :
    cleanContent (fenceWrapJson j) = cleanContent j
      ∧ cleanContent (fenceWrapPlain j) = cleanContent j
      ∧ braceExtract (fenceWrapJson j) = braceExtract j
      ∧ braceExtract (fenceWrapPlain j) = braceExtract j
      ∧ responseRecovery (fenceWrapJson j) = responseRecovery j
      ∧ responseRecovery (fenceWrapPlain j) = responseRecovery j := by
  refine ⟨cleanContent_fenceWrapJson j, cleanContent_fenceWrapPlain j,
    braceExtract_fenceWrapJson j, braceExtract_fenceWrapPlain j, ?_, ?_⟩
  · unfold responseRecovery
    rw [cleanContent_fenceWrapJson j, braceExtract_fenceWrapJson j]
  · unfold responseRecovery
    rw [cleanContent_fenceWrapPlain j, braceExtract_fenceWrapPlain j]

/-- C5 witness: the amended theorem applied to a short string, where no
truncation occurs and the result is its own trim. -/
theorem c5_sanitize_bounds_witness :
    (trimJS (" hi ".toList.filter (fun c => ¬ (c = '<' ∨ c = '>')))).length
        ≤ MAX_STRING_LENGTH
      ∧ trimJS (sanitizeString (some (.str " hi ".toList)))
          = sanitizeString (some (.str " hi ".toList)) :=
  ⟨by decide,
    (c5_sanitize_bounds (some (.str " hi ".toList))).2.2.2.2 " hi ".toList rfl (by decide)⟩
